import Mathlib

/-!
Verification of the diplodoc translate command core
(`src/unnamed/part_000`): dedup cache, requester, backoff retrier,
splitter/batcher and per-file translator.

Texts are modelled as lists of Unicode code points, so that the
JavaScript string `length` (UTF-16 code units, used by the splitter)
and the UTF-8 byte length (used by the spec's accounting) are both
expressible and distinguishable.
-/

namespace Diplodoc

/-- A text fragment: the list of its Unicode code points. -/
abbrev Text := List Nat

/-- Number of UTF-16 code units of one code point (2 for astral planes). -/
def utf16Units (c : Nat) : Nat := if c < 0x10000 then 1 else 2

/-- JavaScript `string.length`: total UTF-16 code units. -/
def jsLength (t : Text) : Nat := (t.map utf16Units).sum

/-- Number of UTF-8 bytes of one code point. -/
def utf8Width (c : Nat) : Nat :=
  if c < 0x80 then 1 else if c < 0x800 then 2 else if c < 0x10000 then 3 else 4

/-- UTF-8 byte length of a text. -/
def byteLength (t : Text) : Nat := (t.map utf8Width).sum

/-- Modelled from the spec: the `bytes` helper imported from `./utils`
(not under src/), specified as "sum(byte-length of each text)". -/
def bytesOf (texts : List Text) : Nat := (texts.map byteLength).sum

/-- Sum of JavaScript lengths of a list of texts (the splitter's
`bufferSize` accounting). -/
def sumJs (b : List Text) : Nat := (b.map jsLength).sum

/-- `const BYTES_LIMIT = 10000` (part_000 line 29). -/
def BYTES_LIMIT : Nat := 10000

/-- `const RETRY_LIMIT = 3` (part_000 line 30). -/
def RETRY_LIMIT : Nat := 3

/-- `const REQUESTS_LIMIT = 20` (part_000 line 28). -/
def REQUESTS_LIMIT : Nat := 20

/-!
## Dedup cache

`Map<string, Defer>` is modelled as an association list in insertion
order (`Map.set` appends a new key at the end; the splitter only
inserts on a lookup miss).  The `Defer` from `./utils` is modelled
from the spec: "Deferred<T>: a future whose value is set exactly once
by a party other than its creator"; `none` is a pending deferred,
`some v` a deferred resolved with `v`. Resolving an already resolved
deferred keeps its first value (promise semantics).
-/

/-- Cache state: text key ↦ pending (`none`) or resolved (`some v`). -/
abbrev CacheM := List (Text × Option (List Text))

/-- `cache.get(text)`: `none` = key absent, `some s` = deferred present
with state `s`. -/
def lookupCache : CacheM → Text → Option (Option (List Text))
  | [], _ => none
  | (k, s) :: rest, t => if k = t then some s else lookupCache rest t

/-- `cache.set(text, new Defer())` on a missing key (splitter line 264). -/
def reserveCache (c : CacheM) (t : Text) : CacheM := c ++ [(t, none)]

/-- The requester's `resolve` closure (part_000 lines 142-148):
`const defer = cache.get(key); if (defer) defer.resolve(v);` —
a pending deferred under `t` becomes resolved with `v`; an already
resolved deferred keeps its first value; a missing key is untouched. -/
def resolveCache : CacheM → Text → List Text → CacheM
  | [], _, _ => []
  | (k, s) :: rest, t, v =>
    if k = t then (k, some (s.getD v)) :: rest
    else (k, s) :: resolveCache rest t v

/-!
## Requester (part_000 lines 138-192)
-/

/-- `request.stat` (part_000 lines 186-189). -/
structure Stat where
  bytes : Nat
  chunks : Nat
deriving DecidableEq, Repr

/-- The not-yet-started action returned by `request(texts)`: it closes
over the batch texts and the dry-run flag. -/
structure BatchAction where
  texts : List Text
  dryRun : Bool
deriving DecidableEq, Repr

/-- `request(texts)` (part_000 lines 150-153): synchronously account
`bytes(texts)` and one chunk, and return the unstarted action. -/
def requestCall (dryRun : Bool) (stat : Stat) (texts : List Text) :
    Stat × BatchAction :=
  ({ bytes := stat.bytes + bytesOf texts, chunks := stat.chunks + 1 },
   { texts := texts, dryRun := dryRun })

/-- Left-to-right cache resolution performed by `texts.map(resolve)` in
dry-run mode: each text resolves its own deferred with `[text]`. -/
def dryResolveAll (cache : CacheM) (texts : List Text) : CacheM :=
  texts.foldl (fun c t => resolveCache c t [t]) cache

/-- Invoking the returned action (part_000 lines 154-183), in the
backend-success case with translation oracle `tr`.  Result: the new
cache, the returned texts, and the list of backend calls made. -/
def runAction (tr : Text → Text) (a : BatchAction) (cache : CacheM) :
    CacheM × List Text × List (List Text) :=
  if a.dryRun then
    (dryResolveAll cache a.texts, a.texts, [])
  else
    let rs := a.texts.map tr
    ((a.texts.zip rs).foldl (fun c p => resolveCache c p.1 [p.2]) cache,
     rs, [a.texts])

/-!
## Backoff retrier (part_000 lines 276-284)

`async.retry({times, interval}, task)` invokes the task, and after a
failed attempt `k` with `k < times` sleeps `interval(k)` and tries
again (in the library source: `attempt++ < times` guards the retry and
the delay is `intervalFunc(attempt - 1)` after the increment).  The
recursion below is indexed by `remaining = times - attempt`, which is
structural.  Result: (number of invocations, delays slept between
attempts, final outcome).
-/

/-- One run of `async.retry` with `remaining` retries still allowed,
starting at attempt number `attempt`; `act k` is the outcome of the
k-th invocation (1-indexed). -/
def retryGo (interval : Nat → Nat) (act : Nat → Except ε α) :
    Nat → Nat → Nat × List Nat × Except ε α
  | remaining, attempt =>
    match act attempt, remaining with
    | Except.ok a, _ => (1, [], Except.ok a)
    | Except.error e, 0 => (1, [], Except.error e)
    | Except.error _, r + 1 =>
      let res := retryGo interval act r (attempt + 1)
      (res.1 + 1, interval attempt :: res.2.1, res.2.2)

/-- `async.retry({times, interval}, asyncify(act))`. -/
def retryModel (times : Nat) (interval : Nat → Nat)
    (act : Nat → Except ε α) : Nat × List Nat × Except ε α :=
  retryGo interval act (times - 1) 1

/-- `backoff(action)` (part_000 lines 276-284):
`retry({times: RETRY_LIMIT, interval: (count) => 2^count * 1000})`. -/
def backoffModel (act : Nat → Except ε α) : Nat × List Nat × Except ε α :=
  retryModel RETRY_LIMIT (fun count => 2 ^ count * 1000) act

/-!
## Splitter/batcher (part_000 lines 237-274)
-/

/-- The origin of one promise pushed into the splitter's `promises`
array: a cache hit's deferred, an oversized unit's
`Promise.resolve([text])`, or a whole batch's `backoff(request(buffer))`. -/
inductive PromiseSrc where
  | cachedP (t : Text)
  | passthrough (t : Text)
  | batchP (ts : List Text)
deriving DecidableEq, Repr

/-- Splitter state for one invocation: the shared cache plus the local
`promises`, `buffer`, `bufferSize`, and (bookkeeping) the batches
passed to `request` and the warnings logged. -/
structure SplitSt where
  cache : CacheM
  promises : List PromiseSrc
  buffer : List Text
  bufferSize : Nat
  batches : List (List Text)
  warnings : List Text
deriving DecidableEq, Repr

/-- `release()` (part_000 lines 243-247): push the batch promise,
record the batch, clear the buffer. -/
def flushSt (s : SplitSt) : SplitSt :=
  { s with
    promises := s.promises ++ [PromiseSrc.batchP s.buffer]
    batches := s.batches ++ [s.buffer]
    buffer := []
    bufferSize := 0 }

/-- One iteration of the splitter's loop body (part_000 lines 249-266).
Note that the fresh-text branch pushes nothing into `promises`. -/
def splitStep (s : SplitSt) (t : Text) : SplitSt :=
  match lookupCache s.cache t with
  | some _ => { s with promises := s.promises ++ [PromiseSrc.cachedP t] }
  | none =>
    if BYTES_LIMIT ≤ jsLength t then
      { s with
        warnings := s.warnings ++ [t]
        promises := s.promises ++ [PromiseSrc.passthrough t] }
    else
      let s₁ := if BYTES_LIMIT < s.bufferSize + jsLength t then flushSt s else s
      { s₁ with
        buffer := s₁.buffer ++ [t]
        bufferSize := s₁.bufferSize + jsLength t
        cache := reserveCache s₁.cache t }

/-- Fresh local state at the start of one splitter invocation. -/
def splitInit (cache : CacheM) : SplitSt :=
  { cache := cache, promises := [], buffer := [], bufferSize := 0,
    batches := [], warnings := [] }

/-- The final `if (bufferSize) promises.push(backoff(request(buffer)))`
(part_000 lines 268-270) — unlike `release()`, it does not clear the
local buffer. -/
def endFlush (s : SplitSt) : SplitSt :=
  if s.bufferSize ≠ 0 then
    { s with
      promises := s.promises ++ [PromiseSrc.batchP s.buffer]
      batches := s.batches ++ [s.buffer] }
  else s

/-- One full splitter invocation (part_000 lines 238-273): the loop
over the units, then the final conditional flush. -/
def splitRun (cache : CacheM) (texts : List Text) : SplitSt :=
  endFlush (texts.foldl splitStep (splitInit cache))

/-- One splitter invocation inside a per-language run: thread the
shared cache and collect the dispatched batches. -/
def runStep (acc : CacheM × List (List Text)) (texts : List Text) :
    CacheM × List (List Text) :=
  let s := splitRun acc.1 texts
  (s.cache, acc.2 ++ s.batches)

/-- A sequence of splitter invocations threading one shared cache (the
per-language run): final cache and all batches passed to the requester,
in dispatch order. -/
def runFiles (cache : CacheM) (files : List (List Text)) :
    CacheM × List (List Text) :=
  files.foldl runStep (cache, [])

/-- Awaiting one of the splitter's returned promises once all dispatch
has completed, with `final` the cache after every batch resolved and
`tr` the backend translation: a cache hit yields the deferred's
resolved value (`none` = the deferred is still pending, the await never
completes), an oversized pass-through yields `[t]`, and a batch promise
yields the batch action's own return value. -/
def awaitPromise (tr : Text → Text) (final : CacheM) :
    PromiseSrc → Option (List Text)
  | PromiseSrc.cachedP t =>
    match lookupCache final t with
    | some (some v) => some v
    | _ => none
  | PromiseSrc.passthrough t => some [t]
  | PromiseSrc.batchP ts => some (ts.map tr)

/-- Modelled from the spec: the `flat` helper from `./utils` (not under
src/), "Flatten each future's result — flatten preserves overall
order"; `flat(await Promise.all(promises))` at part_000 line 230. -/
def flatParts (vals : List (List Text)) : List Text := vals.flatten

/-!
## Per-file translator (part_000 lines 194-234)

Paths are lists of characters.  `extname`, `dirname` and `resolve` are
Node `path` functions, modelled here for ordinary relative file names
(no trailing-slash or all-dot special cases, which no claim exercises).
The external collaborators (`loadFile`, `extract`, `compose`,
`dumpFile`, and the splitter's awaited results) are parameters of the
environment, and the translator's behaviour is recorded as a trace of
effects.
-/

/-- Basename: the suffix of the path after the last slash. -/
def basenameOf (p : List Char) : List Char :=
  p.foldl (fun acc c => if c = '/' then [] else acc ++ [c]) []

/-- Index of the last dot of a list of characters, if any. -/
def lastDotIdx (b : List Char) : Option Nat :=
  (List.range b.length).foldl
    (fun acc i => if b.getD i ' ' = '.' then some i else acc) none

/-- Node `path.extname`: the suffix of the basename from its last dot,
empty when there is no dot or the only dot starts the basename. -/
def extnameOf (p : List Char) : List Char :=
  let b := basenameOf p
  match lastDotIdx b with
  | none => []
  | some 0 => []
  | some (i + 1) => b.drop (i + 1)

/-- The extension whitelist of part_000 line 199:
`['.yaml', '.json', '.md']`. -/
def TRANSLATABLE : List (List Char) :=
  [['.', 'y', 'a', 'm', 'l'], ['.', 'j', 's', 'o', 'n'], ['.', 'm', 'd']]

/-- Node `path.resolve(root, path)` for a relative `path`: join with a
slash (no normalization, which no claim exercises). -/
def pathResolve (root p : List Char) : List Char := root ++ '/' :: p

/-- Node `path.dirname`: everything before the last slash, `"."` when
there is no slash. -/
def dirnameOf (p : List Char) : List Char :=
  match (p.reverse.dropWhile (· ≠ '/')) with
  | [] => ['.']
  | _ :: rest => rest.reverse

/-- One observable step of the per-file translator, in order of
occurrence: file load, output-directory creation, extraction, splitter
invocation, file write. -/
inductive Eff where
  | load (p : List Char)
  | mkdirE (p : List Char)
  | extractE (content : Text)
  | splitE (units : List Text)
  | dump (p : List Char) (content : Text)
deriving DecidableEq, Repr

/-- The translator's collaborators.  `fs` is `loadFile` (the empty text
models empty or absent content, the falsy cases of `if (!content)`);
`extractFn` and `composeFn` are the external extract/compose
collaborators (the skeleton is opaque, carried as a text); `splitFn`
gives the awaited per-promise results of `split(path, units)`. -/
structure TrEnv where
  input : List Char
  output : List Char
  fs : List Char → Text
  extractFn : Text → List Text × Text
  splitFn : List Char → List Text → List (List Text)
  composeFn : Text → List Text → Text

/-- The per-file translator (part_000 lines 197-234) as an effect
trace: extension gate, load, mkdir, empty-content write-through,
extract, empty-units write-through, split + flatten + compose, write. -/
def translatorRun (env : TrEnv) (path : List Char) : List Eff :=
  if extnameOf path ∈ TRANSLATABLE then
    let inputPath := pathResolve env.input path
    let outputPath := pathResolve env.output path
    let content := env.fs inputPath
    let pre := [Eff.load inputPath, Eff.mkdirE (dirnameOf outputPath)]
    if content = [] then
      pre ++ [Eff.dump outputPath content]
    else
      let er := env.extractFn content
      if er.1 = [] then
        pre ++ [Eff.extractE content, Eff.dump outputPath content]
      else
        pre ++ [Eff.extractE content, Eff.splitE er.1,
                Eff.dump outputPath
                  (env.composeFn er.2 (flatParts (env.splitFn path er.1)))]
  else []

/-!
## Cache lemmas
-/

theorem lookupCache_append (c d : CacheM) (t : Text) :
    lookupCache (c ++ d) t =
      match lookupCache c t with
      | some s => some s
      | none => lookupCache d t := by
  induction c with
  | nil => simp [lookupCache]
  | cons p rest ih =>
    obtain ⟨k, s⟩ := p
    by_cases h : k = t <;> simp [lookupCache, h, ih]

theorem lookup_reserve_preserve (c : CacheM) (t u : Text)
    (s : Option (List Text)) (h : lookupCache c u = some s) :
    lookupCache (reserveCache c t) u = some s := by
  simp [reserveCache, lookupCache_append, h]

theorem lookup_reserve_self (c : CacheM) (t : Text)
    (h : lookupCache c t = none) :
    lookupCache (reserveCache c t) t = some none := by
  simp [reserveCache, lookupCache_append, h, lookupCache]

theorem isSome_lookup_reserve (c : CacheM) (t u : Text)
    (h : (lookupCache c u).isSome) :
    (lookupCache (reserveCache c t) u).isSome := by
  obtain ⟨s, hs⟩ := Option.isSome_iff_exists.mp h
  rw [lookup_reserve_preserve c t u s hs]
  rfl

theorem lookup_reserve_cases (c : CacheM) (t u : Text)
    (h : (lookupCache (reserveCache c t) u).isSome) :
    (lookupCache c u).isSome ∨ u = t := by
  rw [reserveCache, lookupCache_append] at h
  cases hc : lookupCache c u with
  | some s => exact Or.inl (by simp [hc])
  | none =>
    rw [hc] at h
    by_cases he : t = u
    · exact Or.inr he.symm
    · simp [lookupCache, he] at h

theorem resolveCache_lookup_ne (c : CacheM) (t : Text) (v : List Text)
    (u : Text) (h : u ≠ t) :
    lookupCache (resolveCache c t v) u = lookupCache c u := by
  induction c with
  | nil => simp [resolveCache]
  | cons p rest ih =>
    obtain ⟨k, s⟩ := p
    by_cases hk : k = t
    · have hku : ¬k = u := fun hh => h (hh.symm.trans hk)
      have htu : ¬t = u := fun hh => h hh.symm
      simp [resolveCache, hk, lookupCache, hku, htu]
    · simp [resolveCache, hk, lookupCache, ih]

theorem resolveCache_pending (c : CacheM) (t : Text) (v : List Text)
    (h : lookupCache c t = some none) :
    lookupCache (resolveCache c t v) t = some (some v) := by
  induction c with
  | nil => simp [lookupCache] at h
  | cons p rest ih =>
    obtain ⟨k, s⟩ := p
    by_cases hk : k = t
    · subst hk
      simp [lookupCache] at h
      simp [resolveCache, lookupCache, h]
    · simp [lookupCache, hk] at h
      simp [resolveCache, hk, lookupCache, ih h]

theorem resolveCache_absent (c : CacheM) (t : Text) (v : List Text)
    (h : lookupCache c t = none) :
    resolveCache c t v = c := by
  induction c with
  | nil => rfl
  | cons p rest ih =>
    obtain ⟨k, s⟩ := p
    by_cases hk : k = t
    · simp [lookupCache, hk] at h
    · simp [lookupCache, hk] at h
      simp [resolveCache, hk, ih h]

theorem resolveCache_resolved (c : CacheM) (t : Text) (v w : List Text)
    (h : lookupCache c t = some (some w)) :
    resolveCache c t v = c := by
  induction c with
  | nil => simp [lookupCache] at h
  | cons p rest ih =>
    obtain ⟨k, s⟩ := p
    by_cases hk : k = t
    · subst hk
      simp [lookupCache] at h
      simp [resolveCache, h]
    · simp [lookupCache, hk] at h
      simp [resolveCache, hk, ih h]

theorem resolveCache_isSome_preserve (c : CacheM) (t : Text) (v : List Text)
    (u : Text) (h : (lookupCache c u).isSome) :
    (lookupCache (resolveCache c t v) u).isSome := by
  by_cases he : u = t
  · subst he
    cases hc : lookupCache c u with
    | none => rw [hc] at h; cases h
    | some s =>
      cases s with
      | none => rw [resolveCache_pending c u v hc]; rfl
      | some w => rw [resolveCache_resolved c u v w hc, hc]; rfl
  · rw [resolveCache_lookup_ne c t v u he]
    exact h

theorem dryResolveAll_preserves_resolved (texts : List Text) (c : CacheM)
    (t : Text) (w : List Text) (h : lookupCache c t = some (some w)) :
    lookupCache (dryResolveAll c texts) t = some (some w) := by
  induction texts generalizing c with
  | nil => exact h
  | cons u rest ih =>
    rw [dryResolveAll, List.foldl_cons]
    apply ih
    by_cases he : t = u
    · subst he
      rw [resolveCache_resolved c t [t] w h]
      exact h
    · rw [resolveCache_lookup_ne c u [u] t he]
      exact h

theorem dryResolveAll_mem (texts : List Text) (c : CacheM) (t : Text)
    (hmem : t ∈ texts) (h : lookupCache c t = some none) :
    lookupCache (dryResolveAll c texts) t = some (some [t]) := by
  induction texts generalizing c with
  | nil => cases hmem
  | cons u rest ih =>
    rw [dryResolveAll, List.foldl_cons]
    by_cases he : t = u
    · subst he
      have h2 : lookupCache (resolveCache c t [t]) t = some (some [t]) :=
        resolveCache_pending c t [t] h
      exact dryResolveAll_preserves_resolved rest _ t [t] h2
    · have hr : t ∈ rest := by
        cases List.mem_cons.mp hmem with
        | inl hh => exact absurd hh he
        | inr hh => exact hh
      exact ih _ hr (by rw [resolveCache_lookup_ne c u [u] t he]; exact h)

/-!
## Splitter invariant
-/

theorem sumJs_append (a b : List Text) : sumJs (a ++ b) = sumJs a + sumJs b := by
  simp [sumJs]

theorem sumJs_single (t : Text) : sumJs [t] = jsLength t := by
  simp [sumJs]

theorem foldl_preserve {σ α : Type _} (f : σ → α → σ) (P : σ → Prop)
    (hstep : ∀ s a, P s → P (f s a)) :
    ∀ (l : List α) (s : σ), P s → P (l.foldl f s) := by
  intro l
  induction l with
  | nil => intro s hs; exact hs
  | cons a rest ih => intro s hs; exact ih _ (hstep s a hs)

/-- Invariant of the splitter loop, relative to the cache `c₀` at the
start of the invocation: `bufferSize` tracks the summed JavaScript
lengths of the buffer; the buffer stays under the byte limit; every
buffered or batched text is small; batches are bounded; no text is
buffered or batched twice; buffered/batched texts are exactly the keys
reserved during this invocation; the starting cache is preserved. -/
def SplitInv (c₀ : CacheM) (s : SplitSt) : Prop :=
  s.bufferSize = sumJs s.buffer ∧
  s.bufferSize ≤ BYTES_LIMIT ∧
  (∀ x ∈ s.buffer, jsLength x < BYTES_LIMIT) ∧
  (∀ b ∈ s.batches, sumJs b ≤ BYTES_LIMIT ∧ ∀ x ∈ b, jsLength x < BYTES_LIMIT) ∧
  (s.batches.flatten ++ s.buffer).Nodup ∧
  (∀ x ∈ s.batches.flatten ++ s.buffer,
    (lookupCache s.cache x).isSome ∧ lookupCache c₀ x = none) ∧
  (∀ u v, lookupCache c₀ u = some v → lookupCache s.cache u = some v) ∧
  (∀ u, (lookupCache s.cache u).isSome →
    (lookupCache c₀ u).isSome ∨ u ∈ s.batches.flatten ++ s.buffer)

theorem splitInit_inv (c₀ : CacheM) : SplitInv c₀ (splitInit c₀) := by
  refine ⟨rfl, by simp [splitInit, BYTES_LIMIT], ?_, ?_, ?_, ?_, ?_, ?_⟩ <;>
    simp [splitInit]

theorem flushSt_members (s : SplitSt) :
    (flushSt s).batches.flatten ++ (flushSt s).buffer =
      s.batches.flatten ++ s.buffer := by
  simp [flushSt]

theorem flushSt_inv (c₀ : CacheM) (s : SplitSt) (h : SplitInv c₀ s) :
    SplitInv c₀ (flushSt s) := by
  obtain ⟨h1, h2, h3, h4, h5, h6, h7, h8⟩ := h
  refine ⟨by simp [flushSt, sumJs], by simp [flushSt, BYTES_LIMIT],
    by simp [flushSt], ?_, ?_, ?_, h7, ?_⟩
  · intro b hb
    rcases List.mem_append.mp hb with hb | hb
    · exact h4 b hb
    · rw [List.mem_singleton.mp hb, ← h1]
      exact ⟨h1 ▸ h2, h3⟩
  · rw [flushSt_members]
    exact h5
  · rw [flushSt_members]
    exact h6
  · intro u hu
    rw [flushSt_members]
    exact h8 u hu

theorem push_fresh_inv (c₀ : CacheM) (s : SplitSt) (t : Text)
    (h : SplitInv c₀ s)
    (hc : lookupCache s.cache t = none)
    (hsize : s.bufferSize + jsLength t ≤ BYTES_LIMIT)
    (hsmall : jsLength t < BYTES_LIMIT) :
    SplitInv c₀
      { s with
        buffer := s.buffer ++ [t]
        bufferSize := s.bufferSize + jsLength t
        cache := reserveCache s.cache t } := by
  obtain ⟨h1, h2, h3, h4, h5, h6, h7, h8⟩ := h
  have hnotin : t ∉ s.batches.flatten ++ s.buffer := by
    intro hm
    have := (h6 t hm).1
    rw [hc] at this
    cases this
  have hc₀ : lookupCache c₀ t = none := by
    cases hcc : lookupCache c₀ t with
    | none => rfl
    | some v =>
      have := h7 t v hcc
      rw [hc] at this
      cases this
  refine ⟨?_, ?_, ?_, h4, ?_, ?_, ?_, ?_⟩
  · simp only [sumJs_append, sumJs_single, h1]
  · exact h1 ▸ hsize
  · intro x hx
    rcases List.mem_append.mp hx with hx | hx
    · exact h3 x hx
    · rw [List.mem_singleton.mp hx]
      exact hsmall
  · show (s.batches.flatten ++ (s.buffer ++ [t])).Nodup
    rw [← List.append_assoc]
    exact List.nodup_append.mpr
      ⟨h5, List.nodup_singleton t,
       fun a ha hb => hnotin (List.mem_singleton.mp hb ▸ ha)⟩
  · intro x hx
    have hx' : x ∈ (s.batches.flatten ++ s.buffer) ++ [t] := by
      rw [List.append_assoc]
      exact hx
    rcases List.mem_append.mp hx' with hx' | hx'
    · exact ⟨isSome_lookup_reserve _ _ _ (h6 x hx').1, (h6 x hx').2⟩
    · rw [List.mem_singleton.mp hx']
      exact ⟨by rw [lookup_reserve_self s.cache t hc]; rfl, hc₀⟩
  · intro u v huv
    exact lookup_reserve_preserve _ _ _ _ (h7 u v huv)
  · intro u hu
    rcases lookup_reserve_cases s.cache t u hu with hu | hu
    · rcases h8 u hu with hh | hh
      · exact Or.inl hh
      · refine Or.inr ?_
        rcases List.mem_append.mp hh with hh | hh
        · exact List.mem_append.mpr (Or.inl hh)
        · exact List.mem_append.mpr (Or.inr (List.mem_append.mpr (Or.inl hh)))
    · subst hu
      exact Or.inr (List.mem_append.mpr
        (Or.inr (List.mem_append.mpr (Or.inr (List.mem_singleton.mpr rfl)))))

theorem splitStep_inv (c₀ : CacheM) (s : SplitSt) (t : Text)
    (h : SplitInv c₀ s) : SplitInv c₀ (splitStep s t) := by
  obtain ⟨h1, h2, h3, h4, h5, h6, h7, h8⟩ := h
  cases hc : lookupCache s.cache t with
  | some s0 =>
    simp only [splitStep, hc]
    exact ⟨h1, h2, h3, h4, h5, h6, h7, h8⟩
  | none =>
    simp only [splitStep, hc]
    by_cases hbig : BYTES_LIMIT ≤ jsLength t
    · rw [if_pos hbig]
      exact ⟨h1, h2, h3, h4, h5, h6, h7, h8⟩
    · rw [if_neg hbig]
      push_neg at hbig
      by_cases hflush : BYTES_LIMIT < s.bufferSize + jsLength t
      · rw [if_pos hflush]
        exact push_fresh_inv c₀ (flushSt s) t
          (flushSt_inv c₀ s ⟨h1, h2, h3, h4, h5, h6, h7, h8⟩)
          hc (by simp [flushSt]; omega) hbig
      · rw [if_neg hflush]
        exact push_fresh_inv c₀ s t ⟨h1, h2, h3, h4, h5, h6, h7, h8⟩
          hc (by omega) hbig

theorem splitLoop_inv (c₀ : CacheM) (texts : List Text) :
    SplitInv c₀ (texts.foldl splitStep (splitInit c₀)) :=
  foldl_preserve splitStep (SplitInv c₀) (splitStep_inv c₀) texts
    (splitInit c₀) (splitInit_inv c₀)

/-- The facts about one finished splitter invocation that the
per-language run needs, stated for `endFlush` of any state satisfying
the loop invariant. -/
theorem endFlush_facts (c₀ : CacheM) (s : SplitSt) (h : SplitInv c₀ s) :
    (∀ b ∈ (endFlush s).batches,
      sumJs b ≤ BYTES_LIMIT ∧ ∀ x ∈ b, jsLength x < BYTES_LIMIT) ∧
    (endFlush s).batches.flatten.Nodup ∧
    (∀ x ∈ (endFlush s).batches.flatten,
      (lookupCache (endFlush s).cache x).isSome ∧ lookupCache c₀ x = none) ∧
    (∀ u v, lookupCache c₀ u = some v →
      lookupCache (endFlush s).cache u = some v) ∧
    (∀ u, (lookupCache (endFlush s).cache u).isSome →
      (lookupCache c₀ u).isSome ∨ u ∈ (endFlush s).batches.flatten ∨
        jsLength u = 0) ∧
    (∀ u, (lookupCache (endFlush s).cache u).isSome →
      (lookupCache c₀ u).isSome ∨ jsLength u < BYTES_LIMIT) := by
  obtain ⟨h1, h2, h3, h4, h5, h6, h7, h8⟩ := h
  have hsmallfl : ∀ x ∈ s.batches.flatten, jsLength x < BYTES_LIMIT := by
    intro x hx
    rcases List.mem_flatten.mp hx with ⟨b, hb, hxb⟩
    exact (h4 b hb).2 x hxb
  by_cases hbs : s.bufferSize ≠ 0
  · have he : endFlush s =
        { s with
          promises := s.promises ++ [PromiseSrc.batchP s.buffer]
          batches := s.batches ++ [s.buffer] } := by
      rw [endFlush, if_pos hbs]
    rw [he]
    have hfl : (s.batches ++ [s.buffer]).flatten =
        s.batches.flatten ++ s.buffer := by
      simp
    refine ⟨?_, ?_, ?_, h7, ?_, ?_⟩
    · intro b hb
      rcases List.mem_append.mp hb with hb | hb
      · exact h4 b hb
      · rw [List.mem_singleton.mp hb, ← h1]
        exact ⟨h1 ▸ h2, h3⟩
    · show (s.batches ++ [s.buffer]).flatten.Nodup
      rw [hfl]
      exact h5
    · show ∀ x ∈ (s.batches ++ [s.buffer]).flatten, _
      rw [hfl]
      exact h6
    · intro u hu
      rcases h8 u hu with hh | hh
      · exact Or.inl hh
      · refine Or.inr (Or.inl ?_)
        show u ∈ (s.batches ++ [s.buffer]).flatten
        rw [hfl]
        exact hh
    · intro u hu
      rcases h8 u hu with hh | hh
      · exact Or.inl hh
      · rcases List.mem_append.mp hh with hh | hh
        · exact Or.inr (hsmallfl u hh)
        · exact Or.inr (h3 u hh)
  · have he : endFlush s = s := by
      rw [endFlush, if_neg hbs]
    rw [he]
    push_neg at hbs
    have hzero : ∀ x ∈ s.buffer, jsLength x = 0 := by
      intro x hx
      have hsum : sumJs s.buffer = 0 := by rw [← h1, hbs]
      have := List.sum_eq_zero_iff.mp hsum (jsLength x)
        (List.mem_map_of_mem jsLength hx)
      exact this
    refine ⟨h4, (List.nodup_append.mp h5).1, ?_, h7, ?_, ?_⟩
    · intro x hx
      exact h6 x (List.mem_append.mpr (Or.inl hx))
    · intro u hu
      rcases h8 u hu with hh | hh
      · exact Or.inl hh
      · rcases List.mem_append.mp hh with hh | hh
        · exact Or.inr (Or.inl hh)
        · exact Or.inr (Or.inr (hzero u hh))
    · intro u hu
      rcases h8 u hu with hh | hh
      · exact Or.inl hh
      · rcases List.mem_append.mp hh with hh | hh
        · exact Or.inr (hsmallfl u hh)
        · exact Or.inr (h3 u hh)

/-- `endFlush_facts` instantiated at one splitter invocation. -/
theorem splitRun_facts (c : CacheM) (texts : List Text) :
    (∀ b ∈ (splitRun c texts).batches,
      sumJs b ≤ BYTES_LIMIT ∧ ∀ x ∈ b, jsLength x < BYTES_LIMIT) ∧
    (splitRun c texts).batches.flatten.Nodup ∧
    (∀ x ∈ (splitRun c texts).batches.flatten,
      (lookupCache (splitRun c texts).cache x).isSome ∧
        lookupCache c x = none) ∧
    (∀ u v, lookupCache c u = some v →
      lookupCache (splitRun c texts).cache u = some v) ∧
    (∀ u, (lookupCache (splitRun c texts).cache u).isSome →
      (lookupCache c u).isSome ∨ u ∈ (splitRun c texts).batches.flatten ∨
        jsLength u = 0) ∧
    (∀ u, (lookupCache (splitRun c texts).cache u).isSome →
      (lookupCache c u).isSome ∨ jsLength u < BYTES_LIMIT) :=
  endFlush_facts c (texts.foldl splitStep (splitInit c))
    (splitLoop_inv c texts)

/-!
## Per-language run invariant
-/

/-- The cache component of a run, independently of batch collection. -/
def runCache (cache : CacheM) (files : List (List Text)) : CacheM :=
  files.foldl (fun c texts => (splitRun c texts).cache) cache

theorem runFilesAux_fst (files : List (List Text)) :
    ∀ (cache : CacheM) (acc : List (List Text)),
      (files.foldl runStep (cache, acc)).1 = runCache cache files := by
  induction files with
  | nil => intro cache acc; rfl
  | cons f rest ih =>
    intro cache acc
    rw [List.foldl_cons, runCache, List.foldl_cons]
    exact ih _ _

theorem runFiles_fst (cache : CacheM) (files : List (List Text)) :
    (runFiles cache files).1 = runCache cache files :=
  runFilesAux_fst files cache []

theorem runCache_preserve (files : List (List Text)) :
    ∀ (cache : CacheM) (u : Text) (v : Option (List Text)),
      lookupCache cache u = some v →
      lookupCache (runCache cache files) u = some v := by
  induction files with
  | nil => intro cache u v h; exact h
  | cons f rest ih =>
    intro cache u v h
    rw [runCache, List.foldl_cons]
    exact ih _ u v ((splitRun_facts cache f).2.2.2.1 u v h)

theorem runCache_keys_small (files : List (List Text)) :
    ∀ cache : CacheM,
      (∀ u, (lookupCache cache u).isSome → jsLength u < BYTES_LIMIT) →
      ∀ u, (lookupCache (runCache cache files) u).isSome →
        jsLength u < BYTES_LIMIT := by
  induction files with
  | nil => intro cache h u hu; exact h u hu
  | cons f rest ih =>
    intro cache h u hu
    rw [runCache, List.foldl_cons] at hu
    refine ih _ ?_ u hu
    intro w hw
    rcases (splitRun_facts cache f).2.2.2.2.2 w hw with hh | hh
    · exact h w hh
    · exact hh

theorem runFilesAux_inv (files : List (List Text)) :
    ∀ (cache : CacheM) (acc : List (List Text)),
      (∀ b ∈ acc, sumJs b ≤ BYTES_LIMIT ∧ ∀ x ∈ b, jsLength x < BYTES_LIMIT) →
      acc.flatten.Nodup →
      (∀ x ∈ acc.flatten, (lookupCache cache x).isSome) →
      (∀ b ∈ (files.foldl runStep (cache, acc)).2,
        sumJs b ≤ BYTES_LIMIT ∧ ∀ x ∈ b, jsLength x < BYTES_LIMIT) ∧
      (files.foldl runStep (cache, acc)).2.flatten.Nodup ∧
      (∀ x ∈ (files.foldl runStep (cache, acc)).2.flatten,
        (lookupCache (files.foldl runStep (cache, acc)).1 x).isSome) := by
  induction files with
  | nil =>
    intro cache acc hgood hnodup hmem
    exact ⟨hgood, hnodup, hmem⟩
  | cons f rest ih =>
    intro cache acc hgood hnodup hmem
    rw [List.foldl_cons]
    obtain ⟨A, B, C, D, E, F⟩ := splitRun_facts cache f
    apply ih
    · intro b hb
      rcases List.mem_append.mp hb with hb | hb
      · exact hgood b hb
      · exact A b hb
    · show (acc ++ (splitRun cache f).batches).flatten.Nodup
      rw [List.flatten_append]
      refine List.nodup_append.mpr ⟨hnodup, B, ?_⟩
      intro a ha hb
      have h1 := hmem a ha
      have h2 := (C a hb).2
      rw [h2] at h1
      cases h1
    · intro x hx
      show (lookupCache (splitRun cache f).cache x).isSome
      rw [List.flatten_append] at hx
      rcases List.mem_append.mp hx with hx | hx
      · obtain ⟨v, hv⟩ := Option.isSome_iff_exists.mp (hmem x hx)
        rw [D x v hv]
        rfl
      · exact (C x hx).1

theorem runFiles_inv (files : List (List Text)) :
    (∀ b ∈ (runFiles [] files).2,
      sumJs b ≤ BYTES_LIMIT ∧ ∀ x ∈ b, jsLength x < BYTES_LIMIT) ∧
    (runFiles [] files).2.flatten.Nodup ∧
    (∀ x ∈ (runFiles [] files).2.flatten,
      (lookupCache (runFiles [] files).1 x).isSome) := by
  exact runFilesAux_inv files [] [] (by simp) (by simp) (by simp)

theorem jsLength_replicate (n c : Nat) :
    jsLength (List.replicate n c) = n * utf16Units c := by
  simp [jsLength, List.map_replicate, List.sum_replicate, smul_eq_mul]

theorem byteLength_replicate (n c : Nat) :
    byteLength (List.replicate n c) = n * utf8Width c := by
  simp [byteLength, List.map_replicate, List.sum_replicate, smul_eq_mul]

/-!
## The run used to exhibit the splitter ordering defect (claim C1)

One language run with translation oracle `t ↦ t ++ [9]`: a first file
with the single unit `[0]` (whose batch is dispatched and resolved),
then a second file with units `[[1], [0]]` — `[1]` fresh, `[0]` a
cache hit.
-/

def trDemo : Text → Text := fun t => t ++ [9]

def demoSplit : SplitSt :=
  splitRun ((runAction trDemo { texts := [[0]], dryRun := false }
    (splitRun [] [[0]]).cache).1) [[1], [0]]

def demoFinal : CacheM :=
  (runAction trDemo { texts := [[1]], dryRun := false } demoSplit.cache).1

def demoParts : List Text :=
  flatParts ((demoSplit.promises.map (awaitPromise trDemo demoFinal)).map
    (fun o => o.getD []))

/-!
## Claims
-/

/-- C1: the splitter does NOT return one future per input unit aligned
with input order.  In the run above, the second file's units are
`[[1], [0]]` with `[0]` a cache hit, but the splitter pushes the cache
hit's future first and the batch future (carrying `[1]`'s translation)
second, so the awaited-and-concatenated parts come out as
`[tr [0], tr [1]]` instead of the claimed alignment
`[tr [1], tr [0]]`.  This contradicts the specified contract
("one future per input unit, in input order"), whose order-preserving
recomposition the rest of the design relies on: the fresh-text branch
of the loop (part_000 lines 257-265) pushes no promise for the unit,
while `release` pushes one promise per batch at flush time. -/
theorem splitter_misaligns_parts_after_cache_hit :
    demoSplit.batches = [[[1]]] ∧
    demoSplit.promises = [PromiseSrc.cachedP [0], PromiseSrc.batchP [[1]]] ∧
    (∀ p ∈ demoSplit.promises, (awaitPromise trDemo demoFinal p).isSome) ∧
    demoParts = [[0, 9], [1, 9]] ∧
    List.map trDemo [[1], [0]] = [[1, 9], [0, 9]] ∧
    demoParts ≠ List.map trDemo [[1], [0]] := by decide

/-- C2 counterexample: `async.retry` treats `times` as the TOTAL number
of attempts, so `backoff` with `times = RETRY_LIMIT = 3` invokes an
always-failing action exactly 3 times (not 4) and sleeps
`[2000, 4000]` (not `[2000, 4000, 8000]`). -/
theorem backoff_not_four_attempts :
    (backoffModel (fun _ => (Except.error 0 : Except Nat Unit))).1 = 3 ∧
    (backoffModel (fun _ => (Except.error 0 : Except Nat Unit))).2.1 =
      [2000, 4000] ∧
    ¬((backoffModel (fun _ => (Except.error 0 : Except Nat Unit))).1 = 4 ∧
      (backoffModel (fun _ => (Except.error 0 : Except Nat Unit))).2.1 =
        [2000, 4000, 8000]) := by decide

/-- C2 (amended): for every action wrapped by the backoff retrier whose
underlying call fails on every attempt, the action is invoked exactly
3 times (1 initial attempt plus 2 retries), the delay before retry `n`
(n = 1, 2) is `2^n * 1000` ms — 2000ms and 4000ms — and after the last
failure the wrapped promise rejects with the last error. -/
theorem backoff_three_attempts_exponential_delays (e : Nat → ε)
    (act : Nat → Except ε α) (h : ∀ k, act k = Except.error (e k)) :
    backoffModel act = (3, [2000, 4000], Except.error (e 3)) := by
  have h1 := h 1
  have h2 := h 2
  have h3 := h 3
  simp [backoffModel, retryModel, RETRY_LIMIT, retryGo, h1, h2, h3]

/-- C2 witness: the amended theorem at the always-failing action
returning its attempt number as the error. -/
theorem backoff_three_attempts_witness :
    backoffModel (fun k => (Except.error k : Except Nat Unit)) =
      (3, [2000, 4000], Except.error 3) :=
  backoff_three_attempts_exponential_delays (fun k => k)
    (fun k => Except.error k) (fun _ => rfl)

/-- C3 counterexample: the splitter bounds batches by the JavaScript
string length, not the byte length.  A text of 3334 CJK code points
(U+4E00, 1 UTF-16 unit but 3 UTF-8 bytes each) has length 3334 and is
batched alone, yet its batch's summed byte length is 10002 > 10000 —
and this unit with byte length ≥ 10000 IS placed in a batch. -/
theorem batch_exceeds_byte_limit :
    (splitRun [] [List.replicate 3334 19968]).batches =
      [[List.replicate 3334 19968]] ∧
    ¬bytesOf [List.replicate 3334 19968] ≤ BYTES_LIMIT := by
  have hjs : jsLength (List.replicate 3334 19968) = 3334 := by
    rw [jsLength_replicate]
    norm_num [utf16Units]
  have hby : byteLength (List.replicate 3334 19968) = 10002 := by
    rw [byteLength_replicate]
    norm_num [utf8Width]
  constructor
  · generalize hT : List.replicate 3334 19968 = t at hjs ⊢
    rw [splitRun]
    simp [splitStep, splitInit, lookupCache, hjs, BYTES_LIMIT, endFlush,
      reserveCache, flushSt]
  · generalize hT : List.replicate 3334 19968 = t at hby ⊢
    simp [bytesOf, hby, BYTES_LIMIT]

/-- C3 (amended): with byte length replaced by JavaScript string length
(UTF-16 code units, what `text.length` computes): over any run from a
fresh cache, every formed batch has summed length ≤ 10000 and contains
only texts of length < 10000; every cached (reserved) text has length
< 10000, so a unit of length ≥ 10000 is never batched and never gets a
cache entry; on a cache miss such an oversized unit only logs a
warning and pushes an already-resolved pass-through future. -/
theorem batches_bounded_by_js_length (files : List (List Text)) :
    (∀ b ∈ (runFiles [] files).2,
      sumJs b ≤ BYTES_LIMIT ∧ ∀ x ∈ b, jsLength x < BYTES_LIMIT) ∧
    (∀ u, (lookupCache (runFiles [] files).1 u).isSome →
      jsLength u < BYTES_LIMIT) ∧
    (∀ (s : SplitSt) (t : Text),
      lookupCache s.cache t = none → BYTES_LIMIT ≤ jsLength t →
      splitStep s t =
        { s with
          warnings := s.warnings ++ [t]
          promises := s.promises ++ [PromiseSrc.passthrough t] }) := by
  refine ⟨(runFiles_inv files).1, ?_, ?_⟩
  · intro u hu
    rw [runFiles_fst] at hu
    refine runCache_keys_small files [] ?_ u hu
    intro w hw
    simp [lookupCache] at hw
  · intro s t h1 h2
    simp [splitStep, h1, h2]

/-- C3 witness: the amended theorem applied to a one-file run whose
only batch is `[[1]]`. -/
theorem batches_bounded_witness :
    sumJs [[1]] ≤ BYTES_LIMIT ∧ ∀ x ∈ [[1]], jsLength x < BYTES_LIMIT :=
  (batches_bounded_by_js_length [[[1]]]).1 [[1]] (by decide)

/-- C4: within one language run (any sequence of splitter invocations
threading one cache from empty), no text occurs twice across all
formed batches (each distinct text is dispatched at most once); cache
entries are never removed or overwritten by later invocations; a
lookup hit makes the splitter append the existing future and touch
nothing else; and resolving a deferred never removes a cache entry. -/
theorem dedup_dispatch_at_most_once (files : List (List Text)) :
    (runFiles [] files).2.flatten.Nodup ∧
    (∀ (more : List (List Text)) (u : Text) (v : Option (List Text)),
      lookupCache (runFiles [] files).1 u = some v →
      lookupCache (runFiles [] (files ++ more)).1 u = some v) ∧
    (∀ (s : SplitSt) (t : Text), (lookupCache s.cache t).isSome →
      splitStep s t =
        { s with promises := s.promises ++ [PromiseSrc.cachedP t] }) ∧
    (∀ (c : CacheM) (t : Text) (v : List Text) (u : Text),
      (lookupCache c u).isSome →
      (lookupCache (resolveCache c t v) u).isSome) := by
  refine ⟨(runFiles_inv files).2.1, ?_, ?_, ?_⟩
  · intro more u v h
    rw [runFiles_fst] at h ⊢
    rw [runCache, List.foldl_append]
    exact runCache_preserve more _ u v (by rw [runCache] at h; exact h)
  · intro s t h
    obtain ⟨s0, h0⟩ := Option.isSome_iff_exists.mp h
    simp [splitStep, h0]
  · exact fun c t v u h => resolveCache_isSome_preserve c t v u h

/-- C4 witness: two one-unit files sharing cache; the entry reserved by
the first run survives an extension of the run, a hit leaves the state
untouched except for the appended future, and resolution keeps keys. -/
theorem dedup_dispatch_witness :
    lookupCache (runFiles [] ([[[1]]] ++ [[[2]]])).1 [1] = some none ∧
    splitStep
      { cache := [([3], none)], promises := [], buffer := [],
        bufferSize := 0, batches := [], warnings := [] } [3] =
      { cache := [([3], none)], promises := [PromiseSrc.cachedP [3]],
        buffer := [], bufferSize := 0, batches := [], warnings := [] } ∧
    (lookupCache (resolveCache [([4], none)] [4] [[6]]) [4]).isSome := by
  refine ⟨(dedup_dispatch_at_most_once [[[1]]]).2.1 [[[2]]] [1] none
    (by decide), ?_, ?_⟩
  · exact (dedup_dispatch_at_most_once []).2.2.1
      { cache := [([3], none)], promises := [], buffer := [],
        bufferSize := 0, batches := [], warnings := [] } [3] (by decide)
  · exact (dedup_dispatch_at_most_once []).2.2.2 [([4], none)] [4] [[6]] [4]
      (by decide)

/-- C5 counterexample: the final flush is guarded by `if (bufferSize)`,
not by buffer non-emptiness.  On the single empty-string unit, the
post-loop buffer is non-empty (`[[]]`) yet `bufferSize = 0`, so no
batch is formed even though a cache entry was reserved for the empty
text — that text is never passed to the requester (and its deferred
can never resolve). -/
theorem final_flush_skips_empty_texts :
    (([([] : Text)]).foldl splitStep (splitInit [])).buffer ≠ [] ∧
    (splitRun [] [([] : Text)]).batches = [] ∧
    lookupCache (splitRun [] [([] : Text)]).cache [] = some none := by
  decide

/-- C5 (amended): after the loop, the buffer is flushed iff its
cumulative size (`bufferSize`) is non-zero; consequently every text
reserved during the invocation ends up in a dispatched batch except
texts of JavaScript length 0 left in a final buffer of cumulative
size 0. -/
theorem final_flush_iff_buffer_size_nonzero (c : CacheM)
    (texts : List Text) :
    ((texts.foldl splitStep (splitInit c)).bufferSize ≠ 0 →
      (splitRun c texts).batches =
        (texts.foldl splitStep (splitInit c)).batches ++
          [(texts.foldl splitStep (splitInit c)).buffer]) ∧
    ((texts.foldl splitStep (splitInit c)).bufferSize = 0 →
      (splitRun c texts).batches =
        (texts.foldl splitStep (splitInit c)).batches) ∧
    (∀ u, (lookupCache (splitRun c texts).cache u).isSome →
      (lookupCache c u).isSome ∨
        u ∈ (splitRun c texts).batches.flatten ∨ jsLength u = 0) := by
  refine ⟨?_, ?_, (splitRun_facts c texts).2.2.2.2.1⟩
  · intro h
    rw [splitRun, endFlush, if_pos h]
  · intro h
    rw [splitRun, endFlush, if_neg (not_not_intro h)]

/-- C5 witness: a single non-empty unit is flushed after the loop and
its reserved text is dispatched. -/
theorem final_flush_witness :
    (splitRun [] [[5]]).batches =
      (([[5]] : List Text).foldl splitStep (splitInit [])).batches ++
        [(([[5]] : List Text).foldl splitStep (splitInit [])).buffer] ∧
    ((lookupCache ([] : CacheM) [5]).isSome ∨
      [5] ∈ (splitRun [] [[5]]).batches.flatten ∨ jsLength [5] = 0) :=
  ⟨(final_flush_iff_buffer_size_nonzero [] [[5]]).1 (by decide),
   (final_flush_iff_buffer_size_nonzero [] [[5]]).2.2 [5] (by decide)⟩

/-- C6: invoking the requester with a batch synchronously adds the sum
of the texts' byte lengths to `stat.bytes` and increments `stat.chunks`
by exactly 1, as part of returning the not-yet-started action: the new
stat is a function of the old stat and the texts alone, so the
accounting stands whether or not the returned action is ever invoked
("chunks attempted", not "chunks succeeded"). -/
theorem requester_accounts_before_action (dryRun : Bool) (stat : Stat)
    (texts : List Text) :
    (requestCall dryRun stat texts).1.bytes =
      stat.bytes + (texts.map byteLength).sum ∧
    (requestCall dryRun stat texts).1.chunks = stat.chunks + 1 ∧
    (requestCall dryRun stat texts).2 =
      { texts := texts, dryRun := dryRun } :=
  ⟨rfl, rfl, rfl⟩

/-- C7: in dry-run mode the action returns exactly the input texts,
unchanged and in order, makes no backend call, and resolves each
text's pending cache entry (if one exists) with the one-element list
holding the text itself. -/
theorem dry_run_echoes_and_resolves (tr : Text → Text) (cache : CacheM)
    (texts : List Text) :
    (runAction tr { texts := texts, dryRun := true } cache).2.1 = texts ∧
    (runAction tr { texts := texts, dryRun := true } cache).2.2 = [] ∧
    (∀ t ∈ texts, lookupCache cache t = some none →
      lookupCache (runAction tr { texts := texts, dryRun := true } cache).1
        t = some (some [t])) := by
  refine ⟨by simp [runAction], by simp [runAction], ?_⟩
  intro t hmem hpend
  have hr : (runAction tr { texts := texts, dryRun := true } cache).1 =
      dryResolveAll cache texts := by simp [runAction]
  rw [hr]
  exact dryResolveAll_mem texts cache t hmem hpend

/-- C7 witness: the dry-run action on the one-text batch `[[3]]` with
its entry pending. -/
theorem dry_run_echo_witness :
    lookupCache (runAction (fun t => t) { texts := [[3]], dryRun := true }
      [([3], none)]).1 [3] = some (some [[3]]) :=
  (dry_run_echoes_and_resolves (fun t => t) [([3], none)] [[3]]).2.2 [3]
    (by decide) (by decide)

/-- C8: for a translatable path, empty or absent loaded content is
written through to the output path unchanged and processing stops
before extraction; non-empty content extracting to zero units is
written through unchanged and processing stops before the splitter is
invoked. -/
theorem translator_write_through_stops (env : TrEnv) (path : List Char)
    (hext : extnameOf path ∈ TRANSLATABLE) :
    (env.fs (pathResolve env.input path) = [] →
      translatorRun env path =
        [Eff.load (pathResolve env.input path),
         Eff.mkdirE (dirnameOf (pathResolve env.output path)),
         Eff.dump (pathResolve env.output path)
           (env.fs (pathResolve env.input path))]) ∧
    (env.fs (pathResolve env.input path) ≠ [] →
      (env.extractFn (env.fs (pathResolve env.input path))).1 = [] →
      translatorRun env path =
        [Eff.load (pathResolve env.input path),
         Eff.mkdirE (dirnameOf (pathResolve env.output path)),
         Eff.extractE (env.fs (pathResolve env.input path)),
         Eff.dump (pathResolve env.output path)
           (env.fs (pathResolve env.input path))]) := by
  constructor
  · intro hempty
    simp [translatorRun, hext, hempty]
  · intro hne hunits
    simp [translatorRun, hext, hne, hunits]

/-- A concrete environment whose loader finds no content anywhere. -/
def envEmptyFs : TrEnv :=
  { input := ['i'], output := ['o'], fs := fun _ => [],
    extractFn := fun c => ([], c), splitFn := fun _ _ => [],
    composeFn := fun _ _ => [] }

/-- A concrete environment whose extractor finds no units. -/
def envNoUnits : TrEnv :=
  { input := ['i'], output := ['o'], fs := fun _ => [7],
    extractFn := fun _ => ([], []), splitFn := fun _ _ => [],
    composeFn := fun _ _ => [] }

/-- C8 witness: both stopping branches on the path `a.md`. -/
theorem translator_write_through_witness :
    translatorRun envEmptyFs ['a', '.', 'm', 'd'] =
      [Eff.load ['i', '/', 'a', '.', 'm', 'd'],
       Eff.mkdirE ['o'],
       Eff.dump ['o', '/', 'a', '.', 'm', 'd'] []] ∧
    translatorRun envNoUnits ['a', '.', 'm', 'd'] =
      [Eff.load ['i', '/', 'a', '.', 'm', 'd'],
       Eff.mkdirE ['o'],
       Eff.extractE [7],
       Eff.dump ['o', '/', 'a', '.', 'm', 'd'] [7]] :=
  ⟨(translator_write_through_stops envEmptyFs ['a', '.', 'm', 'd']
      (by decide)).1 rfl,
   (translator_write_through_stops envNoUnits ['a', '.', 'm', 'd']
      (by decide)).2 (by decide) rfl⟩

/-- C9: resolving a text in the cache is a total function and never an
error: a pending entry is fulfilled with the value; a missing key
(never reserved) leaves the cache untouched; an already resolved entry
keeps its first value and leaves the cache untouched. -/
theorem cache_resolve_total_noop (c : CacheM) (t : Text) (v : List Text) :
    (lookupCache c t = some none →
      lookupCache (resolveCache c t v) t = some (some v)) ∧
    (lookupCache c t = none → resolveCache c t v = c) ∧
    (∀ w, lookupCache c t = some (some w) → resolveCache c t v = c) :=
  ⟨fun h => resolveCache_pending c t v h,
   fun h => resolveCache_absent c t v h,
   fun w h => resolveCache_resolved c t v w h⟩

/-- C9 witness: one pending entry is fulfilled; an absent key is a
no-op. -/
theorem cache_resolve_witness :
    lookupCache (resolveCache [(([4] : Text), none)] [4] [[8]]) [4] =
      some (some [[8]]) ∧
    resolveCache ([] : CacheM) [4] [[8]] = [] :=
  ⟨(cache_resolve_total_noop [([4], none)] [4] [[8]]).1 (by decide),
   (cache_resolve_total_noop [] [4] [[8]]).2.1 rfl⟩

/-- C10: a path whose extension is not `.yaml`, `.json` or `.md` makes
the translator return immediately: no load, no directory creation, no
write — the observable trace is empty. -/
theorem translator_skips_unknown_extensions (env : TrEnv)
    (path : List Char) (hext : extnameOf path ∉ TRANSLATABLE) :
    translatorRun env path = [] := by
  simp [translatorRun, hext]

/-- A concrete environment whose loader and extractor would both make
progress if invoked. -/
def envSkip : TrEnv :=
  { input := ['i'], output := ['o'], fs := fun _ => [7],
    extractFn := fun c => ([c], []), splitFn := fun _ _ => [],
    composeFn := fun _ _ => [] }

/-- C10 witness: the path `a.txt` is skipped with an empty trace. -/
theorem translator_skips_witness :
    translatorRun envSkip ['a', '.', 't', 'x', 't'] = [] :=
  translator_skips_unknown_extensions envSkip ['a', '.', 't', 'x', 't']
    (by decide)

end Diplodoc
